import Mathlib

/-!
Verification of the level-of-evidence classifier in
`src/src/python/cord19q/etl/loe.py` (module `cord19q.etl.loe`).

The Python module scans an article's sections for keyword patterns and
returns a pair `(level, evidence)`.  We embed the module shallowly:

* text is `List Char` (Python `str`, already decoded);
* a compiled alternation pattern (the strings built by the module-level
  `regex` function and the hand-written patterns) is a `List Alt`, one
  entry per alternative, each a literal with an optional word-boundary
  wrapping (`\b ... \b`);
* `re.findall(pattern, text, overlapped=True)` is modelled by scanning
  every start position in increasing order and, at each position, taking
  the first alternative (in pattern order) that matches there — exactly
  the regex engine's behaviour for an alternation of literals with
  `overlapped=True` (after a match the scan resumes at `start + 1`);
* a Python call that raises (the `TypeError` from `" ".join` on a `None`
  item) is modelled by `Option`: `none` is an uncaught exception.

Machine integers do not occur (all counts are small Python ints = `Nat`).
-/

/-- Python `\w` word character (the texts handled are ASCII; `regex`'s
Unicode word class coincides with this on ASCII). -/
def isWordChar (c : Char) : Bool := c.isAlphanum || c = '_'

/-- Does the literal `t` occur in `s` starting at index `i`?
(`s[i : i + len t] == t` in Python terms.) -/
def litMatchAt (t s : List Char) (i : Nat) : Bool :=
  decide ((s.drop i).take t.length = t)

/-- Is the character at index `i` of `s` a word character?
Out-of-range positions count as non-word (string edges). -/
def wordAt (s : List Char) (i : Nat) : Bool :=
  match s.get? i with
  | some c => isWordChar c
  | none => false

/-- The regex word-boundary assertion `\b` at position `i` of `s`:
the wordness of the character before the position differs from the
wordness of the character at the position. -/
def boundaryAt (s : List Char) (i : Nat) : Bool :=
  (if i = 0 then false else wordAt s (i - 1)) != wordAt s i

/-- One alternative of a compiled pattern: a literal, and whether the
alternative is wrapped in `\b ... \b` (the module-level `regex` function
wraps every term; the fallback pattern `mathematical|computer|forecast`
does not). -/
structure Alt where
  lit : List Char
  bdry : Bool
deriving DecidableEq, Repr

/-- Does alternative `a` match `s` at position `i` (including its word
boundaries when present)? -/
def altMatchAt (a : Alt) (s : List Char) (i : Nat) : Bool :=
  litMatchAt a.lit s i &&
    (!a.bdry || (boundaryAt s i && boundaryAt s (i + a.lit.length)))

/-- At position `i`, the first alternative (in pattern order) that
matches, returning the matched text (= the literal, since patterns and
texts are both lower-cased).  Regex alternation is ordered: the leftmost
alternative that matches at a position wins. -/
def findFirstAlt (alts : List Alt) (s : List Char) (i : Nat) : Option (List Char) :=
  match alts with
  | [] => none
  | a :: rest => if altMatchAt a s i then some a.lit else findFirstAlt rest s i

/-- `re.findall(pattern, text, overlapped=True)`: one candidate match per
start position, positions scanned left to right. -/
def findAll (alts : List Alt) (s : List Char) : List (List Char) :=
  (List.range (s.length + 1)).filterMap (fun i => findFirstAlt alts s i)

/-- `regex(terms)` from `loe.py`: each term is lower-cased, escaped
(escaping only makes the term match literally, so it is the identity in
this model) and wrapped in word boundaries; the terms are joined by `|`.
The result is the ordered list of boundary-wrapped literal alternatives;
an empty term list yields the empty pattern (Python `""`). -/
def regex (terms : List String) : List Alt :=
  terms.map (fun t => ⟨t.data.map Char.toLower, true⟩)

/-- Number of occurrences of `x` in `l` (`collections.Counter` count). -/
def countOcc (x : List Char) (l : List (List Char)) : Nat :=
  (l.filter (fun y => y == x)).length

/-- Structural helper for `dedupKeys`: keep the elements not yet seen,
in order of first occurrence. -/
def dedupAux (seen : List (List Char)) : List (List Char) → List (List Char)
  | [] => []
  | x :: xs => if seen.contains x then dedupAux seen xs else x :: dedupAux (x :: seen) xs

/-- The distinct elements of `l` in first-occurrence order
(`collections.Counter` preserves insertion order). -/
def dedupKeys (l : List (List Char)) : List (List Char) := dedupAux [] l

/-- `Counter(matches).items()`: keys in first-occurrence order, each with
its count. -/
def tally (l : List (List Char)) : List (List Char × Nat) :=
  (dedupKeys l).map (fun k => (k, countOcc k l))

/-- Insert `x` before the first element whose count is `≤ x`'s count.
Used to model Python's stable `sorted(..., key=count, reverse=True)`:
`x` originates before every element it is inserted into, so placing it
before equal counts preserves the original order of equal elements. -/
def insertByCount (x : List Char × Nat) : List (List Char × Nat) → List (List Char × Nat)
  | [] => [x]
  | y :: ys => if y.2 ≤ x.2 then x :: y :: ys else y :: insertByCount x ys

/-- Stable sort by descending count
(`sorted(counter.items(), key=lambda x: x[1], reverse=True)`). -/
def sortByCountDesc : List (List Char × Nat) → List (List Char × Nat)
  | [] => []
  | x :: xs => insertByCount x (sortByCountDesc xs)

/-- The apostrophe character used by the `"'%s': %d"` format. -/
def quoteCh : Char := Char.ofNat 39

/-- `"'%s': %d" % (key, value)` as a character list. -/
def fmtPairChars (p : List Char × Nat) : List Char :=
  quoteCh :: p.1 ++ [quoteCh, ':', ' '] ++ (Nat.repr p.2).data

/-- `sep.join(items)` on character lists. -/
def joinChars (sep : List Char) : List (List Char) → List Char
  | [] => []
  | [x] => x
  | x :: y :: xs => x ++ sep ++ joinChars sep (y :: xs)

/-- The keyword-match summary string `"'k1': n1, 'k2': n2, ..."` built by
`LOE.matches` from the raw match list. -/
def fmtCounts (ms : List (List Char)) : List Char :=
  joinChars [',', ' '] ((sortByCountDesc (tally ms)).map fmtPairChars)

/-- A section record `(name, text, _)`.  The third tuple component is
never read by `loe.py`, so it is omitted.  `none` models Python `None`. -/
structure PySection where
  name : Option String
  text : Option String
deriving DecidableEq, Repr

/-- `name.lower()` for a section name (no newline normalisation). -/
def lowerData (s : String) : List Char := s.data.map Char.toLower

/-- `text.replace("\n", " ").lower()` applied to a joined text blob. -/
def normText (s : String) : List Char :=
  (s.data.map (fun c => if c = '\n' then ' ' else c)).map Char.toLower

/-- Sequence a list of optional strings; `none` anywhere means Python's
`" ".join` raises `TypeError` on a `None` item. -/
def seqOpts : List (Option String) → Option (List String)
  | [] => some []
  | none :: _ => none
  | some s :: rest => (seqOpts rest).map (fun l => s :: l)

/-- `" ".join(items)`, propagating the `TypeError` on a `None` item. -/
def pyJoin (l : List (Option String)) : Option String :=
  (seqOpts l).map (String.intercalate " ")

/-- Python truthiness of a `(level, evidence)` value: a tuple is falsy
iff it has zero components, and `(0, None)` is a 2-tuple, hence always
truthy.  So `if not label:` in `LOE.label` never takes its branch. -/
def tupleFalsy (_t : Nat × Option String) : Bool := false

/-- Modelled from the spec: the vocabulary term lists (`cord19q.etl.vocab`,
not part of the sources given) are an external collaborator — "a fixed set
of named term lists supplied at startup", one ordered list of strings per
name.  Their contents are left abstract; every result below holds for any
vocabulary. -/
structure Vocab where
  SYSTEMATIC_REVIEW : List String
  RANDOMIZED_CONTROL_TRIAL : List String
  PSEUDO_RANDOMIZED_CONTROL_TRIAL : List String
  GENERIC_L3 : List String
  RETROSPECTIVE_COHORT : List String
  GENERIC_CASE_CONTROL : List String
  MATCHED_CASE_CONTROL : List String
  CROSS_SECTIONAL_CASE_CONTROL : List String
  TIME_SERIES_ANALYSIS : List String
  PREVALENCE_STUDY : List String
  COMPUTER_MODEL : List String

namespace LOE

/-- `LOE.matches(keywords, text)`: `if keywords:` (the empty pattern —
built from an empty term list — and `None` are both falsy and
short-circuit to `(0, None)`); otherwise `findall` with `overlapped=True`,
and if any matches were found, the count together with the formatted
frequency summary. -/
def pyMatches (keywords : List Alt) (text : List Char) : Nat × Option String :=
  if keywords = [] then (0, none)
  else
    match findAll keywords text with
    | [] => (0, none)
    | m :: ms => ((m :: ms).length, some (String.mk (fmtCounts (m :: ms))))

/-- `TITLE_REGEX`: keyword patterns for study names in titles, in fixed
priority order with their labels.  `\bcross\-?sectional\b` and
`\btime\-?series\b` are alternations of the hyphenated and unhyphenated
spellings (the greedy `-?` tries the hyphen first). -/
def TITLE_REGEX : List (List Alt × Nat) :=
  [(regex ["systematic review", "meta-analysis"], 1),
   (regex ["randomized control"], 2),
   (regex ["pseudo-randomized"], 3),
   (regex ["retrospective cohort"], 4),
   (regex ["matched case"], 5),
   ([⟨"cross-sectional".data, true⟩, ⟨"crosssectional".data, true⟩], 6),
   ([⟨"time-series".data, true⟩, ⟨"timeseries".data, true⟩], 7),
   (regex ["prevalence"], 8)]

/-- `CATEGORIES`: the full-text evidence categories, each a compiled
pattern with its per-category minimum match count, in the fixed list
order of `loe.py` (weakest evidence first). -/
def CATEGORIES (v : Vocab) : List (List Alt × Nat) :=
  [(regex v.COMPUTER_MODEL, 1),
   (regex v.PREVALENCE_STUDY, 1),
   (regex v.TIME_SERIES_ANALYSIS, 2),
   (regex (v.GENERIC_L3 ++ v.GENERIC_CASE_CONTROL ++ v.CROSS_SECTIONAL_CASE_CONTROL), 2),
   (regex (v.GENERIC_L3 ++ v.GENERIC_CASE_CONTROL ++ v.MATCHED_CASE_CONTROL), 2),
   (regex (v.GENERIC_L3 ++ v.RETROSPECTIVE_COHORT), 2),
   (regex v.PSEUDO_RANDOMIZED_CONTROL_TRIAL, 3),
   (regex v.RANDOMIZED_CONTROL_TRIAL, 3),
   (regex v.SYSTEMATIC_REVIEW, 4)]

/-- The fallback pattern `mathematical|computer|forecast` (no word
boundaries: partial matches allowed). -/
def FALLBACK : List Alt :=
  [⟨"mathematical".data, false⟩, ⟨"computer".data, false⟩, ⟨"forecast".data, false⟩]

/-- `LOE.find(section, token)`: `(name and token in name.lower()) or
(text and token in text.lower())`; a falsy (missing or empty) field is
skipped. -/
def find (s : PySection) (token : List Char) : Bool :=
  (match s.name with
   | some n => !(n == "") && (List.range ((lowerData n).length + 1)).any
       (fun i => litMatchAt token (lowerData n) i)
   | none => false) ||
  (match s.text with
   | some t => !(t == "") && (List.range ((lowerData t).length + 1)).any
       (fun i => litMatchAt token (lowerData t) i)
   | none => false)

/-- `LOE.accept(sections)`: at least one section contains the token
`"method"` or `"result"` (partial word matches allowed) in its name or
text. -/
def accept (sections : List PySection) : Bool :=
  sections.any (fun s => find s ("method".data) || find s ("result".data))

/-- `.` of the filter regex: any character except a newline (no
`DOTALL`). -/
def isDot (c : Char) : Bool := c != '\n'

/-- Every character of `s` at an index in `[a, b)` is matched by `.`
(i.e. is not a newline).  Models a `.*?` consuming exactly `s[a:b]`. -/
def noNl (s : List Char) (a b : Nat) : Bool :=
  (List.range b).all (fun j => decide (j < a) || (s.get? j != some '\n'))

/-- Does `.*?results.*?` match exactly the slice `s[s0:d]`?  It does iff
the slice splits as `A ++ "results" ++ B` with `A` and `B` free of
newlines: there is an occurrence of `"results"` at some `r` with
`s0 ≤ r` and `r + 7 ≤ d`, and `s[s0:r]` and `s[r+7:d]` contain no
newline. -/
def lbMatchBetween (s : List Char) (s0 d : Nat) : Bool :=
  (List.range (d + 1)).any (fun r =>
    decide (s0 ≤ r) && litMatchAt ("results".data) s r && decide (r + 7 ≤ d) &&
    noNl s s0 r && noNl s (r + 7) d)

/-- The variable-length lookbehind `(?<=.*?results.*?)` at position `d`:
some end-anchored slice `s[s0:d]` is matched by `.*?results.*?`. -/
def lookbehindResults (s : List Char) (d : Nat) : Bool :=
  (List.range (d + 1)).any (fun s0 => lbMatchBetween s s0 d)

/-- `re.search(r"introduction|(?<!.*?results.*?)discussion|background|reference", name)`:
some position matches some alternative; the `discussion` alternative
additionally requires its negative lookbehind to fail. -/
def filterSearch (s : List Char) : Bool :=
  (List.range (s.length + 1)).any (fun i =>
    litMatchAt ("introduction".data) s i ||
    (litMatchAt ("discussion".data) s i && !(lookbehindResults s i)) ||
    litMatchAt ("background".data) s i ||
    litMatchAt ("reference".data) s i)

/-- `LOE.filter(name)`: `not re.search(...)` — `True` iff the (already
lower-cased) section name should be analysed. -/
def filter (name : List Char) : Bool := !(filterSearch name)

/-- `name and name.lower() == "title"`: the comprehension guard selecting
title sections. -/
def isTitleSection (s : PySection) : Bool :=
  match s.name with
  | some n => !(n == "") && (lowerData n == "title".data)
  | none => false

/-- `not name or LOE.filter(name.lower())`: the comprehension guard
selecting the sections whose text enters full-text scoring. -/
def includedInScoring (s : PySection) : Bool :=
  match s.name with
  | none => true
  | some n => (n == "") || filter (lowerData n)

/-- First index of `b` in `l` (`list.index(b)`; call sites guarantee
`b ∈ l`, otherwise Python would raise `ValueError`). -/
def firstIdx (b : Nat) : List Nat → Nat
  | [] => 0
  | c :: cs => if c = b then 0 else firstIdx b cs + 1

/-- `matches[index]` — the index is always in range at the call site
(it is `counts.index(max(counts))`). -/
def getPairD (l : List (Nat × Option String)) (i : Nat) : Nat × Option String :=
  (l.get? i).getD (0, none)

/-- `LOE.top(matches)`: the maximum count over the `(count, keywords)`
list; if it is non-zero, the first entry attaining it wins and the label
is the inverted 1-based index `len(matches) - index`; otherwise
`(0, None)`.  `max(counts)` on an empty list would raise `ValueError`
(`none`); `label` only ever passes the 9-entry category list. -/
def top (ms : List (Nat × Option String)) : Option (Nat × Option String) :=
  match ms with
  | [] => none
  | m :: rest =>
    let counts := (m :: rest).map Prod.fst
    let best := (rest.map Prod.fst).foldl max m.1
    if best ≠ 0 then
      let index := firstIdx best counts
      some ((m :: rest).length - index, (getPairD (m :: rest) index).2)
    else some (0, none)

/-- The per-category gated scores of the full-text stage: each category's
`LOE.matches` result, replaced by `(0, None)` when the raw count is below
the category minimum. -/
def gatedMatches (v : Vocab) (text : List Char) : List (Nat × Option String) :=
  (CATEGORIES v).map (fun km =>
    let m := pyMatches km.1 text
    if km.2 ≤ m.1 then m else (0, none))

/-- The `if LOE.accept(sections):` block of `label`: join the texts of
the filter-accepted sections (a `None` text makes `" ".join` raise),
normalise, and if the blob is non-empty score every category and take the
top gated match; otherwise the label stays `(0, None)`. -/
def fullTextStage (v : Vocab) (sections : List PySection) : Option (Nat × Option String) :=
  match pyJoin ((sections.filter includedInScoring).map PySection.text) with
  | none => none
  | some t0 =>
    let text := normText t0
    if text ≠ [] then top (gatedMatches v text) else some (0, none)

/-- The `for regex, loe in LOE.TITLE_REGEX:` loop: the first pattern with
a non-zero match count on the title text returns immediately. -/
def scanTitle (l : List (List Alt × Nat)) (title : List Char) : Option (Nat × Option String) :=
  match l with
  | [] => none
  | (pat, loe) :: rest =>
    let m := pyMatches pat title
    if m.1 ≠ 0 then some (loe, m.2) else scanTitle rest title

/-- `LOE.label(sections)`.  Stage order as in the source: build the title
blob (a `None` text raises), scan the title patterns (first hit returns),
gate on `accept`, run the full-text stage, and finally the
`if not label:` fallback — which is dead code, because `label` is always
a truthy 2-tuple (`tupleFalsy`). -/
def label (v : Vocab) (sections : List PySection) : Option (Nat × Option String) :=
  match pyJoin ((sections.filter isTitleSection).map PySection.text) with
  | none => none
  | some t0 =>
    let title := normText t0
    match scanTitle TITLE_REGEX title with
    | some r => some r
    | none =>
      match (if accept sections then fullTextStage v sections else some (0, none)) with
      | none => none
      | some lbl =>
        if tupleFalsy lbl then
          let fb := pyMatches FALLBACK title
          some (if fb.1 ≠ 0 then ((CATEGORIES v).length, fb.2) else lbl)
        else some lbl

end LOE

/-- A concrete vocabulary used to instantiate hypotheses on small inputs. -/
def sampleVocab : Vocab where
  SYSTEMATIC_REVIEW := ["systematic review"]
  RANDOMIZED_CONTROL_TRIAL := ["randomized controlled trial"]
  PSEUDO_RANDOMIZED_CONTROL_TRIAL := ["pseudo-randomized"]
  GENERIC_L3 := ["cohort study"]
  RETROSPECTIVE_COHORT := ["retrospective cohort"]
  GENERIC_CASE_CONTROL := ["case control"]
  MATCHED_CASE_CONTROL := ["matched case control"]
  CROSS_SECTIONAL_CASE_CONTROL := ["cross sectional"]
  TIME_SERIES_ANALYSIS := ["time series"]
  PREVALENCE_STUDY := ["prevalence study"]
  COMPUTER_MODEL := ["computer model"]

/-- The spec's reading of the section filter, stated independently of the
regex machinery: a (lower-cased) name is accepted iff it contains none of
`introduction`, `background`, `reference`, and every occurrence of
`discussion` in it is preceded by an occurrence of `results` that ends at
or before it with no newline in between. -/
def specFilterAccepts (s : List Char) : Prop :=
  (¬ ∃ i, litMatchAt ("introduction".data) s i = true) ∧
  (¬ ∃ i, litMatchAt ("background".data) s i = true) ∧
  (¬ ∃ i, litMatchAt ("reference".data) s i = true) ∧
  (∀ d, litMatchAt ("discussion".data) s d = true →
    ∃ r, litMatchAt ("results".data) s r = true ∧ r + 7 ≤ d ∧
      ∀ j, r + 7 ≤ j → j < d → s.get? j ≠ some '\n')

/-! ### Generic lemmas about the matcher and list helpers -/

theorem litMatchAt_le (t s : List Char) (i : Nat) (ht : t ≠ [])
    (h : litMatchAt t s i = true) : i + t.length ≤ s.length := by
  rw [litMatchAt, decide_eq_true_eq] at h
  have hlen := congrArg List.length h
  rw [List.length_take, List.length_drop] at hlen
  have htl : 0 < t.length := List.length_pos.mpr ht
  have hmin := Nat.min_le_right t.length (s.length - i)
  rw [hlen] at hmin
  omega

theorem seqOpts_isSome (lst : List (Option String))
    (h : ∀ o ∈ lst, o.isSome = true) : (seqOpts lst).isSome = true := by
  induction lst with
  | nil => rfl
  | cons o os ih =>
    cases o with
    | none => simpa using h none (List.mem_cons_self _ _)
    | some s =>
      have h2 := ih (fun o ho => h o (List.mem_cons_of_mem _ ho))
      cases hos : seqOpts os with
      | none => rw [hos] at h2; simp at h2
      | some l => simp [seqOpts, hos]

theorem pyJoin_isSome (lst : List (Option String))
    (h : ∀ o ∈ lst, o.isSome = true) : (pyJoin lst).isSome = true := by
  have h2 := seqOpts_isSome lst h
  cases hs : seqOpts lst with
  | none => rw [hs] at h2; simp at h2
  | some l => simp [pyJoin, hs]

theorem insertByCount_ne_nil (x : List Char × Nat) (l : List (List Char × Nat)) :
    insertByCount x l ≠ [] := by
  cases l with
  | nil => simp [insertByCount]
  | cons y ys =>
    rw [insertByCount]
    split <;> simp

theorem joinChars_cons (sep : List Char) (x : List Char) (xs : List (List Char)) :
    ∃ r, joinChars sep (x :: xs) = x ++ r := by
  cases xs with
  | nil => exact ⟨[], by simp [joinChars]⟩
  | cons y ys => exact ⟨sep ++ joinChars sep (y :: ys), by simp [joinChars]⟩

theorem fmtCounts_quote (ms : List (List Char)) (h : ms ≠ []) :
    ∃ r, fmtCounts ms = quoteCh :: r := by
  obtain ⟨m, ms', rfl⟩ := List.exists_cons_of_ne_nil h
  rw [fmtCounts]
  have h1 : tally (m :: ms') = (m, countOcc m (m :: ms')) ::
      (dedupAux [m] ms').map (fun k => (k, countOcc k (m :: ms'))) := by
    rw [tally, dedupKeys, dedupAux]
    simp
  rw [h1, sortByCountDesc]
  obtain ⟨z, zs, hz⟩ := List.exists_cons_of_ne_nil
    (insertByCount_ne_nil (m, countOcc m (m :: ms')) _)
  rw [hz, List.map_cons]
  obtain ⟨r, hr⟩ := joinChars_cons [',', ' '] (fmtPairChars z) _
  rw [hr, fmtPairChars]
  exact ⟨_, rfl⟩

theorem pyMatches_pos (alts : List Alt) (text : List Char)
    (h : (LOE.pyMatches alts text).1 ≠ 0) :
    ∃ s : String, (LOE.pyMatches alts text).2 = some s ∧ s ≠ "" := by
  rw [LOE.pyMatches] at h ⊢
  by_cases he : alts = []
  · simp [he] at h
  · rw [if_neg he] at h ⊢
    cases hfa : findAll alts text with
    | nil => rw [hfa] at h; simp at h
    | cons m ms =>
      obtain ⟨r, hr⟩ := fmtCounts_quote (m :: ms) (by simp)
      refine ⟨String.mk (fmtCounts (m :: ms)), rfl, ?_⟩
      rw [hr]
      intro hc
      rw [String.ext_iff] at hc
      simp at hc

theorem scanTitle_head_pos (pat : List Alt) (loe : Nat) (rest : List (List Alt × Nat))
    (title : List Char) (h : (LOE.pyMatches pat title).1 ≠ 0) :
    LOE.scanTitle ((pat, loe) :: rest) title = some (loe, (LOE.pyMatches pat title).2) := by
  simp [LOE.scanTitle, h]

theorem scanTitle_head_zero (pat : List Alt) (loe : Nat) (rest : List (List Alt × Nat))
    (title : List Char) (h : (LOE.pyMatches pat title).1 = 0) :
    LOE.scanTitle ((pat, loe) :: rest) title = LOE.scanTitle rest title := by
  simp [LOE.scanTitle, h]

theorem scanTitle_none_of (l : List (List Alt × Nat)) (title : List Char)
    (h : ∀ k : Fin l.length, (LOE.pyMatches (l.get k).1 title).1 = 0) :
    LOE.scanTitle l title = none := by
  induction l with
  | nil => rfl
  | cons hd tl ih =>
    obtain ⟨pat, loe⟩ := hd
    rw [scanTitle_head_zero pat loe tl title (by simpa using h ⟨0, by simp⟩)]
    exact ih (fun k => by simpa using h ⟨k.1 + 1, by simp [Nat.succ_lt_succ k.2]⟩)

theorem scanTitle_first (l : List (List Alt × Nat)) (title : List Char) (k : Fin l.length)
    (hz : ∀ j : Fin l.length, j.1 < k.1 → (LOE.pyMatches (l.get j).1 title).1 = 0)
    (hnz : (LOE.pyMatches (l.get k).1 title).1 ≠ 0) :
    LOE.scanTitle l title = some ((l.get k).2, (LOE.pyMatches (l.get k).1 title).2) := by
  induction l with
  | nil => exact absurd k.2 (by simp)
  | cons hd tl ih =>
    obtain ⟨pat, loe⟩ := hd
    rcases k with ⟨kv, hk⟩
    cases kv with
    | zero =>
      rw [scanTitle_head_pos pat loe tl title (by simpa using hnz)]
      simp
    | succ kv' =>
      have h0 : (LOE.pyMatches pat title).1 = 0 := by
        simpa using hz ⟨0, by simp⟩ (Nat.succ_pos _)
      rw [scanTitle_head_zero pat loe tl title h0]
      have htl : kv' < tl.length := by simpa [Nat.succ_lt_succ_iff] using hk
      have hz2 : ∀ j : Fin tl.length, j.1 < kv' →
          (LOE.pyMatches (tl.get j).1 title).1 = 0 := by
        intro j hj
        have := hz ⟨j.1 + 1, by simp [Nat.succ_lt_succ j.2]⟩
          (by simpa using Nat.succ_lt_succ hj)
        simpa using this
      have hnz2 : (LOE.pyMatches (tl.get ⟨kv', htl⟩).1 title).1 ≠ 0 := by simpa using hnz
      simpa using ih ⟨kv', htl⟩ hz2 hnz2

theorem scanTitle_sound (l : List (List Alt × Nat)) (title : List Char) (a : Nat)
    (b : Option String) (h : LOE.scanTitle l title = some (a, b)) :
    ∃ p, p ∈ l ∧ a = p.2 ∧ (LOE.pyMatches p.1 title).1 ≠ 0 ∧
      b = (LOE.pyMatches p.1 title).2 := by
  induction l with
  | nil => simp [LOE.scanTitle] at h
  | cons hd tl ih =>
    obtain ⟨pat, loe⟩ := hd
    by_cases hc : (LOE.pyMatches pat title).1 = 0
    · rw [scanTitle_head_zero pat loe tl title hc] at h
      obtain ⟨p, hp, h1, h2, h3⟩ := ih h
      exact ⟨p, List.mem_cons_of_mem _ hp, h1, h2, h3⟩
    · rw [scanTitle_head_pos pat loe tl title hc] at h
      obtain ⟨h1, h2⟩ := Prod.mk.injEq .. ▸ (Option.some.injEq _ _ ▸ h)
      exact ⟨(pat, loe), List.mem_cons_self _ _, by simp [← h1], hc, by simp [← h2]⟩

theorem foldlMax_init_le (cs : List Nat) (c : Nat) : c ≤ cs.foldl max c := by
  induction cs generalizing c with
  | nil => exact Nat.le_refl c
  | cons d ds ih => exact Nat.le_trans (Nat.le_max_left c d) (ih (max c d))

theorem foldlMax_mem_le (cs : List Nat) (c x : Nat) (hx : x ∈ cs) :
    x ≤ cs.foldl max c := by
  induction cs generalizing c with
  | nil => simp at hx
  | cons d ds ih =>
    rcases List.mem_cons.mp hx with rfl | hx'
    · exact Nat.le_trans (Nat.le_max_right c x) (foldlMax_init_le ds (max c x))
    · exact ih (max c d) hx'

theorem foldlMax_cases (cs : List Nat) (c : Nat) :
    cs.foldl max c = c ∨ cs.foldl max c ∈ cs := by
  induction cs generalizing c with
  | nil => exact Or.inl rfl
  | cons d ds ih =>
    rcases ih (max c d) with h | h
    · rcases Nat.le_total c d with hle | hle
      · right
        rw [List.foldl_cons, h, Nat.max_eq_right hle]
        exact List.mem_cons_self _ _
      · left
        rw [List.foldl_cons, h, Nat.max_eq_left hle]
    · right
      exact List.mem_cons_of_mem _ (by rw [List.foldl_cons]; exact h)

theorem firstIdx_get? (b : Nat) (l : List Nat) (h : b ∈ l) :
    l.get? (LOE.firstIdx b l) = some b := by
  induction l with
  | nil => simp at h
  | cons c cs ih =>
    rw [LOE.firstIdx]
    by_cases hc : c = b
    · simp [hc]
    · rcases List.mem_cons.mp h with rfl | h'
      · exact absurd rfl hc
      · simp only [if_neg hc, List.get?_cons_succ]
        exact ih h'

theorem firstIdx_lt (b : Nat) (l : List Nat) (h : b ∈ l) :
    LOE.firstIdx b l < l.length := by
  induction l with
  | nil => simp at h
  | cons c cs ih =>
    rw [LOE.firstIdx]
    by_cases hc : c = b
    · simp [hc]
    · rcases List.mem_cons.mp h with rfl | h'
      · exact absurd rfl hc
      · simpa [if_neg hc, Nat.succ_lt_succ_iff] using ih h'

theorem firstIdx_eq (b : Nat) (l : List Nat) (i : Nat) (hi : l.get? i = some b)
    (hmin : ∀ j, j < i → l.get? j ≠ some b) : LOE.firstIdx b l = i := by
  induction l generalizing i with
  | nil => simp at hi
  | cons c cs ih =>
    cases i with
    | zero =>
      rw [List.get?_cons_zero, Option.some.injEq] at hi
      simp [LOE.firstIdx, hi]
    | succ i' =>
      have hc : c ≠ b := by
        intro hcb
        exact hmin 0 (Nat.succ_pos _) (by simp [hcb])
      rw [LOE.firstIdx, if_neg hc]
      rw [List.get?_cons_succ] at hi
      have := ih i' hi (fun j hj => by
        have := hmin (j + 1) (Nat.succ_lt_succ hj)
        simpa using this)
      omega

theorem top_cons_pos (m : Nat × Option String) (rest : List (Nat × Option String))
    (h : (rest.map Prod.fst).foldl max m.1 ≠ 0) :
    LOE.top (m :: rest) =
      some ((m :: rest).length -
          LOE.firstIdx ((rest.map Prod.fst).foldl max m.1) ((m :: rest).map Prod.fst),
        (LOE.getPairD (m :: rest)
          (LOE.firstIdx ((rest.map Prod.fst).foldl max m.1) ((m :: rest).map Prod.fst))).2) := by
  simp only [LOE.top]
  rw [if_pos h]

theorem top_cons_zero (m : Nat × Option String) (rest : List (Nat × Option String))
    (h : (rest.map Prod.fst).foldl max m.1 = 0) :
    LOE.top (m :: rest) = some (0, none) := by
  simp only [LOE.top]
  rw [if_neg (by simp [h])]

theorem best_mem (m : Nat × Option String) (rest : List (Nat × Option String)) :
    (rest.map Prod.fst).foldl max m.1 ∈ (m :: rest).map Prod.fst := by
  rcases foldlMax_cases (rest.map Prod.fst) m.1 with h | h
  · rw [h, List.map_cons]
    exact List.mem_cons_self _ _
  · rw [List.map_cons]
    exact List.mem_cons_of_mem _ h

theorem best_ge (m : Nat × Option String) (rest : List (Nat × Option String))
    (x : Nat) (hx : x ∈ (m :: rest).map Prod.fst) :
    x ≤ (rest.map Prod.fst).foldl max m.1 := by
  rw [List.map_cons] at hx
  rcases List.mem_cons.mp hx with rfl | hx'
  · exact foldlMax_init_le _ _
  · exact foldlMax_mem_le _ _ _ hx'

theorem top_sound (ms : List (Nat × Option String)) (l : Nat) (e : Option String)
    (h : LOE.top ms = some (l, e)) :
    (l = 0 ∧ e = none) ∨
      ∃ i c, ms.get? i = some (c, e) ∧ c ≠ 0 ∧ i < ms.length ∧ l = ms.length - i := by
  cases ms with
  | nil => simp [LOE.top] at h
  | cons m rest =>
    by_cases hb : (rest.map Prod.fst).foldl max m.1 = 0
    · rw [top_cons_zero m rest hb] at h
      obtain ⟨h1, h2⟩ := Prod.mk.injEq .. ▸ (Option.some.injEq _ _ ▸ h)
      exact Or.inl ⟨h1.symm, h2.symm⟩
    · rw [top_cons_pos m rest hb] at h
      set best := (rest.map Prod.fst).foldl max m.1 with hbest
      set idx := LOE.firstIdx best ((m :: rest).map Prod.fst) with hidx
      have hmem := best_mem m rest
      have hlt : idx < ((m :: rest).map Prod.fst).length := firstIdx_lt _ _ hmem
      have hget : ((m :: rest).map Prod.fst).get? idx = some best := firstIdx_get? _ _ hmem
      rw [List.get?_map] at hget
      cases hpair : (m :: rest).get? idx with
      | none => rw [hpair] at hget; simp at hget
      | some pair =>
        rw [hpair] at hget
        simp only [Option.map_some', Option.some.injEq] at hget
        obtain ⟨h1, h2⟩ := Prod.mk.injEq .. ▸ (Option.some.injEq _ _ ▸ h)
        refine Or.inr ⟨idx, best, ?_, hb, by simpa using hlt, h1.symm⟩
        rw [hpair]
        have he : e = pair.2 := by
          rw [← h2, LOE.getPairD, hpair]
          rfl
        rw [he, ← hget]

theorem gatedMatches_length (v : Vocab) (text : List Char) :
    (LOE.gatedMatches v text).length = (LOE.CATEGORIES v).length := by
  rw [LOE.gatedMatches, List.length_map]

theorem categories_length (v : Vocab) : (LOE.CATEGORIES v).length = 9 := rfl

theorem gated_entry_evidence (v : Vocab) (text : List Char) (i c : Nat) (e : Option String)
    (h : (LOE.gatedMatches v text).get? i = some (c, e)) (hc : c ≠ 0) :
    ∃ s, e = some s ∧ s ≠ "" := by
  rw [LOE.gatedMatches, List.get?_map] at h
  cases hcat : (LOE.CATEGORIES v).get? i with
  | none => rw [hcat] at h; simp at h
  | some km =>
    rw [hcat] at h
    simp only [Option.map_some', Option.some.injEq] at h
    by_cases hmin : km.2 ≤ (LOE.pyMatches km.1 text).1
    · rw [if_pos hmin] at h
      have hc2 : (LOE.pyMatches km.1 text).1 ≠ 0 := by
        rw [h]; simpa using hc
      obtain ⟨s, hs, hs2⟩ := pyMatches_pos km.1 text hc2
      refine ⟨s, ?_, hs2⟩
      rw [h] at hs
      simpa using hs
    · rw [if_neg hmin] at h
      simp only [Prod.mk.injEq] at h
      exact absurd h.1.symm hc

theorem fullTextStage_sound (v : Vocab) (sections : List PySection) (l : Nat)
    (e : Option String) (h : LOE.fullTextStage v sections = some (l, e)) :
    (l = 0 ∧ e = none) ∨ (l ≠ 0 ∧ l ≤ 9 ∧ ∃ s, e = some s ∧ s ≠ "") := by
  rw [LOE.fullTextStage] at h
  cases hj : pyJoin ((sections.filter LOE.includedInScoring).map PySection.text) with
  | none => rw [hj] at h; simp at h
  | some t0 =>
    rw [hj] at h
    simp only at h
    by_cases hne : normText t0 ≠ []
    · rw [if_pos hne] at h
      rcases top_sound _ _ _ h with h1 | ⟨i, c, hget, hc, hi, hl⟩
      · exact Or.inl h1
      · right
        have h9 : (LOE.gatedMatches v (normText t0)).length = 9 := by
          rw [gatedMatches_length, categories_length]
        rw [h9] at hi hl
        obtain ⟨s, hs, hs2⟩ := gated_entry_evidence v (normText t0) i c e hget hc
        exact ⟨by omega, by omega, s, hs, hs2⟩
    · rw [if_neg hne] at h
      obtain ⟨h1, h2⟩ := Prod.mk.injEq .. ▸ (Option.some.injEq _ _ ▸ h)
      exact Or.inl ⟨h1.symm, h2.symm⟩

theorem lookbehind_iff (s : List Char) (d : Nat) :
    LOE.lookbehindResults s d = true ↔
      ∃ r, litMatchAt ("results".data) s r = true ∧ r + 7 ≤ d ∧
        ∀ j, r + 7 ≤ j → j < d → s.get? j ≠ some '\n' := by
  constructor
  · intro h
    rw [LOE.lookbehindResults, List.any_eq_true] at h
    obtain ⟨s0, _, hb⟩ := h
    rw [LOE.lbMatchBetween, List.any_eq_true] at hb
    obtain ⟨r, _, hconj⟩ := hb
    simp only [Bool.and_eq_true, decide_eq_true_eq] at hconj
    obtain ⟨⟨⟨⟨_, hlit⟩, hrd⟩, _⟩, hB⟩ := hconj
    refine ⟨r, hlit, hrd, ?_⟩
    intro j hj1 hj2
    rw [LOE.noNl, List.all_eq_true] at hB
    have hj := hB j (List.mem_range.mpr hj2)
    simp only [Bool.or_eq_true, decide_eq_true_eq, bne_iff_ne, ne_eq] at hj
    rcases hj with h1 | h2
    · omega
    · exact h2
  · rintro ⟨r, hlit, hrd, hnl⟩
    rw [LOE.lookbehindResults, List.any_eq_true]
    refine ⟨r, List.mem_range.mpr (by omega), ?_⟩
    rw [LOE.lbMatchBetween, List.any_eq_true]
    refine ⟨r, List.mem_range.mpr (by omega), ?_⟩
    simp only [Bool.and_eq_true, decide_eq_true_eq]
    refine ⟨⟨⟨⟨Nat.le_refl r, hlit⟩, hrd⟩, ?_⟩, ?_⟩
    · rw [LOE.noNl, List.all_eq_true]
      intro j hj
      simp [List.mem_range.mp hj]
    · rw [LOE.noNl, List.all_eq_true]
      intro j hj
      by_cases hc : j < r + 7
      · simp [hc]
      · simp only [Bool.or_eq_true, decide_eq_true_eq, bne_iff_ne, ne_eq]
        exact Or.inr (hnl j (by omega) (List.mem_range.mp hj))

theorem litMatchAt_range (tok s : List Char) (i : Nat) (ht : tok ≠ [])
    (h : litMatchAt tok s i = true) : i ∈ List.range (s.length + 1) := by
  have := litMatchAt_le tok s i ht h
  have htl : 0 < tok.length := List.length_pos.mpr ht
  exact List.mem_range.mpr (by omega)

/-! ### Claim theorems -/

/-- C7 (counterexample): the name `"results\ndiscussion"` contains
`results` (at index 0) ending before the occurrence of `discussion`
(at index 8) and contains none of `introduction`, `background`,
`reference`, yet `LOE.filter` rejects it: the lookbehind's `.*?` cannot
cross the newline separating `results` from `discussion`. -/
theorem C7_newline_rejected :
    LOE.filter ("results\ndiscussion".data) = false ∧
    litMatchAt ("results".data) ("results\ndiscussion".data) 0 = true ∧
    litMatchAt ("discussion".data) ("results\ndiscussion".data) 8 = true ∧
    (List.range (("results\ndiscussion".data).length + 1)).all (fun i =>
      !(litMatchAt ("introduction".data) ("results\ndiscussion".data) i) &&
      !(litMatchAt ("background".data) ("results\ndiscussion".data) i) &&
      !(litMatchAt ("reference".data) ("results\ndiscussion".data) i)) = true := by
  refine ⟨by decide, by decide, by decide, by decide⟩

/-- C7 (amended): `LOE.filter` accepts a lower-cased section name iff the
name contains none of `introduction`, `background`, `reference`, and every
occurrence of `discussion` is preceded by an occurrence of `results` that
ends at or before it with no newline between the end of that `results`
and the `discussion`. -/
theorem C7_filter_correct (name : List Char) :
    LOE.filter name = true ↔ specFilterAccepts name := by
  rw [LOE.filter, Bool.not_eq_true']
  rw [LOE.filterSearch, List.any_eq_false]
  constructor
  · intro h
    refine ⟨?_, ?_, ?_, ?_⟩
    · rintro ⟨i, hi⟩
      have := h i (litMatchAt_range _ name i (by decide) hi)
      simp [hi] at this
    · rintro ⟨i, hi⟩
      have := h i (litMatchAt_range _ name i (by decide) hi)
      simp [hi] at this
    · rintro ⟨i, hi⟩
      have := h i (litMatchAt_range _ name i (by decide) hi)
      simp [hi] at this
    · intro d hd
      have := h d (litMatchAt_range _ name d (by decide) hd)
      simp [hd] at this
      exact (lookbehind_iff name d).mp (by tauto)
  · rintro ⟨h1, h2, h3, h4⟩ i _
    have hA : litMatchAt ("introduction".data) name i = false := by
      rw [Bool.eq_false_iff]
      intro hc
      exact h1 ⟨i, hc⟩
    have hC : litMatchAt ("background".data) name i = false := by
      rw [Bool.eq_false_iff]
      intro hc
      exact h2 ⟨i, hc⟩
    have hD : litMatchAt ("reference".data) name i = false := by
      rw [Bool.eq_false_iff]
      intro hc
      exact h3 ⟨i, hc⟩
    have hB : (litMatchAt ("discussion".data) name i &&
        !(LOE.lookbehindResults name i)) = false := by
      by_cases hd : litMatchAt ("discussion".data) name i = true
      · have hlb := (lookbehind_iff name i).mpr (h4 i hd)
        simp [hlb]
      · simp [Bool.eq_false_iff.mpr hd]
    simp [hA, hB, hC, hD]

/-- C9: `regex` applied to an empty term list produces the empty pattern,
and `LOE.matches` (`pyMatches`) on that empty pattern returns `(0, None)`
for every text: the `if keywords:` guard short-circuits, so the empty
(or `None`) pattern never throws and never matches anything. -/
theorem C9_empty_pattern :
    regex [] = ([] : List Alt) ∧
    ∀ text : List Char, LOE.pyMatches (regex []) text = (0, none) :=
  ⟨rfl, fun _ => rfl⟩

/-- C1: the fallback stage is dead code.  On
`sections = [("title", "A computer model of transmission", None)]` the
title patterns find nothing, the `method`/`result` gate fails, and —
although the loose fallback pattern does match `computer` in the title
(second conjunct) — `label` returns `(0, None)` for every vocabulary,
because `if not label:` tests the truthiness of the 2-tuple `(0, None)`,
which is always truthy, instead of the level. -/
theorem C1_fallback_dead :
    ∀ v : Vocab,
      LOE.label v [⟨some "title", some "A computer model of transmission"⟩] =
        some (0, none) ∧
      (LOE.pyMatches LOE.FALLBACK (normText "A computer model of transmission")).1 = 1 :=
  fun _ => ⟨rfl, rfl⟩

/-- C2 (counterexample): a section whose text is missing (`None`) makes
`label` raise: the section `("methods", None, None)` passes the
`method`/`result` gate and the section filter, so its `None` text reaches
`" ".join`, which raises `TypeError` (modelled as `none`). -/
theorem C2_join_raises :
    LOE.label sampleVocab [⟨some "methods", none⟩] = none := rfl

/-- C4 (counterexample): on `[("title", None, None)]` the `None` text of
the title section reaches `" ".join` before any scanning, so `label`
raises (`none`) instead of returning a `(level, evidence)` pair. -/
theorem C4_title_none_raises :
    LOE.label sampleVocab [⟨some "title", none⟩] = none := rfl

/-- C5: title stage priority.  If the joined title text is built
successfully and the `k`-th title pattern (in the fixed order
systematic-review/meta-analysis, randomized control, pseudo-randomized,
retrospective cohort, matched case, cross-sectional, time-series,
prevalence) has a match while all earlier patterns have none, `label`
immediately returns that pattern's level and keyword string — for every
vocabulary and regardless of the remaining sections' content, bypassing
full-text scoring.  In particular a title matching pattern 0
(`systematic review`) yields level 1 even when `randomized control` also
occurs in it. -/
theorem C5_title_priority (v : Vocab) (sections : List PySection) (t0 : String)
    (k : Fin LOE.TITLE_REGEX.length)
    (hjoin : pyJoin ((sections.filter LOE.isTitleSection).map PySection.text) = some t0)
    (hz : ∀ j : Fin LOE.TITLE_REGEX.length, j.1 < k.1 →
      (LOE.pyMatches (LOE.TITLE_REGEX.get j).1 (normText t0)).1 = 0)
    (hnz : (LOE.pyMatches (LOE.TITLE_REGEX.get k).1 (normText t0)).1 ≠ 0) :
    LOE.label v sections =
      some ((LOE.TITLE_REGEX.get k).2,
        (LOE.pyMatches (LOE.TITLE_REGEX.get k).1 (normText t0)).2) := by
  rw [LOE.label, hjoin]
  simp only
  rw [scanTitle_first LOE.TITLE_REGEX (normText t0) k hz hnz]

/-- C6: acceptance gate.  If the joined title text is built successfully,
no title pattern matches it, and no section contains `method` or `result`
(as a case-insensitive partial-word substring of its name or its text),
then the full-text stage is skipped entirely and `label` returns
`(0, None)` for every vocabulary. -/
theorem C6_gate_blocks (v : Vocab) (sections : List PySection) (t0 : String)
    (hjoin : pyJoin ((sections.filter LOE.isTitleSection).map PySection.text) = some t0)
    (hz : ∀ k : Fin LOE.TITLE_REGEX.length,
      (LOE.pyMatches (LOE.TITLE_REGEX.get k).1 (normText t0)).1 = 0)
    (hnm : ∀ s ∈ sections, LOE.find s ("method".data) = false ∧
      LOE.find s ("result".data) = false) :
    LOE.label v sections = some (0, none) := by
  have hacc : LOE.accept sections = false := by
    rw [LOE.accept, List.any_eq_false]
    intro s hs
    simp [(hnm s hs).1, (hnm s hs).2]
  rw [LOE.label, hjoin]
  simp only
  rw [scanTitle_none_of LOE.TITLE_REGEX (normText t0) hz, hacc]
  simp [tupleFalsy]

/-- C10: the acceptance gate inspects every section, including sections
whose text is excluded from full-text scoring: if some section named
`title`, `introduction`, `background`, `reference` or `discussion`
contains `method` or `result` in its name or text, the gate opens
(`accept = true`) and — when no title pattern matched — `label` proceeds
to the full-text stage over the filter-eligible sections. -/
theorem C10_gate_sees_all (v : Vocab) (sections : List PySection) (t0 : String)
    (s : PySection)
    (hjoin : pyJoin ((sections.filter LOE.isTitleSection).map PySection.text) = some t0)
    (hz : ∀ k : Fin LOE.TITLE_REGEX.length,
      (LOE.pyMatches (LOE.TITLE_REGEX.get k).1 (normText t0)).1 = 0)
    (hs : s ∈ sections)
    (hname : ∃ nm, s.name = some nm ∧
      (lowerData nm = "title".data ∨ lowerData nm = "introduction".data ∨
       lowerData nm = "background".data ∨ lowerData nm = "reference".data ∨
       lowerData nm = "discussion".data))
    (htok : LOE.find s ("method".data) = true ∨ LOE.find s ("result".data) = true) :
    LOE.accept sections = true ∧ LOE.label v sections = LOE.fullTextStage v sections := by
  have hacc : LOE.accept sections = true := by
    rw [LOE.accept, List.any_eq_true]
    refine ⟨s, hs, ?_⟩
    rcases htok with h | h <;> simp [h]
  refine ⟨hacc, ?_⟩
  rw [LOE.label, hjoin]
  simp only
  rw [scanTitle_none_of LOE.TITLE_REGEX (normText t0) hz, hacc]
  simp only [if_pos]
  cases hft : LOE.fullTextStage v sections with
  | none => rfl
  | some lbl => simp [tupleFalsy]

/-- C4 (amended): whenever `label` returns normally (does not raise), the
level is in `{0, ..., 9}` and the evidence is `None` exactly when the
level is `0`; a present evidence string is never empty. -/
theorem C4_label_shape (v : Vocab) (sections : List PySection) (l : Nat)
    (e : Option String) (h : LOE.label v sections = some (l, e)) :
    l ≤ 9 ∧ (e = none ↔ l = 0) ∧ e ≠ some "" := by
  rw [LOE.label] at h
  cases hj : pyJoin ((sections.filter LOE.isTitleSection).map PySection.text) with
  | none => rw [hj] at h; simp at h
  | some t0 =>
    rw [hj] at h
    simp only at h
    cases hscan : LOE.scanTitle LOE.TITLE_REGEX (normText t0) with
    | some r =>
      rw [hscan] at h
      obtain ⟨a, b⟩ := r
      obtain ⟨p, hp, ha, hcnt, hb⟩ := scanTitle_sound _ _ a b hscan
      have hrange : ∀ q ∈ LOE.TITLE_REGEX, q.2 ≠ 0 ∧ q.2 ≤ 9 := by decide
      obtain ⟨s, hs, hs2⟩ := pyMatches_pos p.1 (normText t0) hcnt
      have hla : l = a ∧ e = b := by
        have := Option.some.injEq _ _ ▸ h
        exact ⟨(congrArg Prod.fst this).symm, (congrArg Prod.snd this).symm⟩
      obtain ⟨rfl, rfl⟩ := hla
      refine ⟨by rw [ha]; exact (hrange p hp).2, ?_, ?_⟩
      · rw [hb, hs, ha]
        simp [(hrange p hp).1]
      · rw [hb, hs]
        simp [hs2]
    | none =>
      rw [hscan] at h
      cases hacc : LOE.accept sections with
      | false =>
        rw [hacc] at h
        simp only [tupleFalsy, Bool.false_eq_true, if_false, Option.some.injEq] at h
        obtain ⟨h1, h2⟩ := Prod.mk.injEq .. ▸ h.symm
        subst h1
        subst h2
        simp
      | true =>
        rw [hacc] at h
        simp only [if_pos] at h
        cases hft : LOE.fullTextStage v sections with
        | none => rw [hft] at h; simp at h
        | some lbl =>
          rw [hft] at h
          simp only [tupleFalsy, Bool.false_eq_true, if_false, Option.some.injEq] at h
          rw [h] at hft
          rcases fullTextStage_sound v sections l e hft with ⟨rfl, rfl⟩ | ⟨h1, h2, s, rfl, hs2⟩
          · simp
          · exact ⟨h2, by simp [h1], by simp [hs2]⟩

theorem top_isSome (m : Nat × Option String) (rest : List (Nat × Option String)) :
    (LOE.top (m :: rest)).isSome = true := by
  by_cases hb : (rest.map Prod.fst).foldl max m.1 = 0
  · rw [top_cons_zero m rest hb]
    rfl
  · rw [top_cons_pos m rest hb]
    rfl

theorem fullTextStage_isSome (v : Vocab) (sections : List PySection)
    (h : ∀ s ∈ sections, s.text.isSome = true) :
    (LOE.fullTextStage v sections).isSome = true := by
  have h2 : (pyJoin ((sections.filter LOE.includedInScoring).map PySection.text)).isSome
      = true := by
    apply pyJoin_isSome
    intro o ho
    rw [List.mem_map] at ho
    obtain ⟨s, hs, rfl⟩ := ho
    exact h s (List.mem_of_mem_filter hs)
  rw [LOE.fullTextStage]
  cases hj2 : pyJoin ((sections.filter LOE.includedInScoring).map PySection.text) with
  | none => rw [hj2] at h2; simp at h2
  | some t1 =>
    simp only
    by_cases hne : normText t1 ≠ []
    · rw [if_pos hne]
      cases hg : LOE.gatedMatches v (normText t1) with
      | nil =>
        have hlen := gatedMatches_length v (normText t1)
        rw [hg, categories_length] at hlen
        simp at hlen
      | cons m rest => exact top_isSome m rest
    · rw [if_neg hne]
      rfl

/-- C2 (amended): when every section's text field is present, `label`
never raises — it always returns a complete `(level, evidence)` result.
(Missing names are tolerated throughout; a missing text is tolerated by
the gate's `find` but raises `TypeError` if it reaches one of the two
`" ".join` calls, as the counterexample shows.) -/
theorem C2_no_raise (v : Vocab) (sections : List PySection)
    (h : ∀ s ∈ sections, s.text.isSome = true) :
    (LOE.label v sections).isSome = true := by
  have h1 : (pyJoin ((sections.filter LOE.isTitleSection).map PySection.text)).isSome
      = true := by
    apply pyJoin_isSome
    intro o ho
    rw [List.mem_map] at ho
    obtain ⟨s, hs, rfl⟩ := ho
    exact h s (List.mem_of_mem_filter hs)
  rw [LOE.label]
  cases hj : pyJoin ((sections.filter LOE.isTitleSection).map PySection.text) with
  | none => rw [hj] at h1; simp at h1
  | some t0 =>
    simp only
    cases hscan : LOE.scanTitle LOE.TITLE_REGEX (normText t0) with
    | some r => simp
    | none =>
      cases hacc : LOE.accept sections with
      | false => simp [tupleFalsy]
      | true =>
        simp only [if_pos]
        cases hft : LOE.fullTextStage v sections with
        | none =>
          have := fullTextStage_isSome v sections h
          rw [hft] at this
          simp at this
        | some lbl => simp [tupleFalsy]

/-- C8: minimum-threshold gating.  For every vocabulary and text, a
category whose raw `pyMatches` count is strictly below its configured
minimum is replaced by `(0, None)` in the gated list, and consequently
can never be the winner `top` selects (its level `len - k` is never
returned). -/
theorem C8_minimum_gate (v : Vocab) (text : List Char)
    (k : Fin (LOE.CATEGORIES v).length)
    (h : (LOE.pyMatches ((LOE.CATEGORIES v).get k).1 text).1 <
      ((LOE.CATEGORIES v).get k).2) :
    (LOE.gatedMatches v text).get? k.1 = some (0, none) ∧
    (LOE.top (LOE.gatedMatches v text)).all
      (fun p => p.1 != (LOE.CATEGORIES v).length - k.1) = true := by
  have hget : (LOE.gatedMatches v text).get? k.1 = some (0, none) := by
    rw [LOE.gatedMatches, List.get?_map, List.get?_eq_get k.2]
    simp only [Option.map_some', Fin.eta]
    rw [if_neg (by omega)]
  refine ⟨hget, ?_⟩
  cases htop : LOE.top (LOE.gatedMatches v text) with
  | none => rfl
  | some p =>
    obtain ⟨l, e⟩ := p
    rw [Option.all_some]
    rcases top_sound _ _ _ htop with ⟨rfl, rfl⟩ | ⟨i, c, hgi, hc, hi, hl⟩
    · have hk9 : k.1 < (LOE.CATEGORIES v).length := k.2
      simp only [bne_iff_ne, ne_eq]
      omega
    · simp only [bne_iff_ne, ne_eq]
      intro heq
      have hlen : (LOE.gatedMatches v text).length = (LOE.CATEGORIES v).length :=
        gatedMatches_length v text
      have hik : i = k.1 := by
        have hk9 : k.1 < (LOE.CATEGORIES v).length := k.2
        omega
      rw [hik, hget] at hgi
      have : c = 0 := (Prod.mk.injEq .. ▸ (Option.some.injEq _ _ ▸ hgi.symm)).1
      exact hc this

/-- C3: full-text selection.  For a non-empty gated `(count, evidence)`
list: if every count is `0`, `top` returns `(0, None)`; otherwise, if
entry `i` attains the maximum count (every count is `≤` it) and every
earlier entry is strictly below it — i.e. `i` is the first entry
attaining the maximum, so on exact ties the earlier entry wins — then
`top` returns level `length - i` (index 0 ↦ 9 for the 9-category list,
last index ↦ 1) paired with entry `i`'s keyword string. -/
theorem C3_top_selection (ms : List (Nat × Option String)) (hne : ms ≠ []) :
    ((∀ p ∈ ms, p.1 = 0) → LOE.top ms = some (0, none)) ∧
    (∀ i : Fin ms.length,
      0 < (ms.get i).1 →
      (∀ j : Fin ms.length, (ms.get j).1 ≤ (ms.get i).1) →
      (∀ j : Fin ms.length, j.1 < i.1 → (ms.get j).1 < (ms.get i).1) →
      LOE.top ms = some (ms.length - i.1, (ms.get i).2)) := by
  obtain ⟨m, rest, rfl⟩ := List.exists_cons_of_ne_nil hne
  constructor
  · intro hall
    have hb0 : (rest.map Prod.fst).foldl max m.1 = 0 := by
      rcases foldlMax_cases (rest.map Prod.fst) m.1 with hcase | hcase
      · rw [hcase]
        exact hall m (List.mem_cons_self _ _)
      · obtain ⟨p, hp, hpb⟩ := List.mem_map.mp hcase
        rw [← hpb]
        exact hall p (List.mem_cons_of_mem _ hp)
    exact top_cons_zero m rest hb0
  · intro i hpos hmax hfirst
    have hbe : (rest.map Prod.fst).foldl max m.1 = ((m :: rest).get i).1 := by
      apply Nat.le_antisymm
      · obtain ⟨p, hp, hpb⟩ := List.mem_map.mp (best_mem m rest)
        obtain ⟨j, hj⟩ := List.mem_iff_get.mp hp
        rw [← hpb, ← hj]
        exact hmax j
      · exact best_ge m rest _ (List.mem_map.mpr ⟨(m :: rest).get i, List.get_mem _ _ _, rfl⟩)
    have hbne : (rest.map Prod.fst).foldl max m.1 ≠ 0 := by omega
    rw [top_cons_pos m rest hbne]
    have hcget : ((m :: rest).map Prod.fst).get? i.1 =
        some ((rest.map Prod.fst).foldl max m.1) := by
      rw [List.get?_map, List.get?_eq_get i.2]
      simp [Fin.eta, hbe]
    have hmin : ∀ j, j < i.1 →
        ((m :: rest).map Prod.fst).get? j ≠ some ((rest.map Prod.fst).foldl max m.1) := by
      intro j hj
      have hjlen : j < (m :: rest).length := Nat.lt_trans hj i.2
      rw [List.get?_map, List.get?_eq_get hjlen]
      simp only [Option.map_some', ne_eq, Option.some.injEq, Fin.eta]
      have hlt := hfirst ⟨j, hjlen⟩ hj
      omega
    rw [firstIdx_eq _ _ i.1 hcget hmin]
    rw [LOE.getPairD, List.get?_eq_get i.2]
    simp [Fin.eta]

/-! ### Witnesses -/

theorem C3_top_selection_w :
    LOE.top [(0, none), (3, some "a"), (3, some "b")] = some (2, some "a") := by
  have h := (C3_top_selection [(0, none), (3, some "a"), (3, some "b")] (by decide)).2
    ⟨1, by decide⟩ (by decide) (by decide) (by decide)
  exact h.trans (by decide)

theorem C5_title_priority_w :
    LOE.label sampleVocab [⟨some "title", some "Randomized control trial of X"⟩] =
      some (2, some "\x27randomized control\x27: 1") := by
  have h := C5_title_priority sampleVocab
    [⟨some "title", some "Randomized control trial of X"⟩]
    "Randomized control trial of X" ⟨1, by decide⟩ (by decide) (by decide) (by decide)
  exact h.trans (by decide)

theorem C6_gate_blocks_w :
    LOE.label sampleVocab [⟨some "abstract", some "we studied things"⟩] =
      some (0, none) :=
  C6_gate_blocks sampleVocab [⟨some "abstract", some "we studied things"⟩] ""
    (by decide) (by decide) (by decide)

theorem C10_gate_sees_all_w :
    LOE.accept [⟨some "introduction", some "our methods are described"⟩,
      ⟨some "analysis", some "words"⟩] = true ∧
    LOE.label sampleVocab [⟨some "introduction", some "our methods are described"⟩,
      ⟨some "analysis", some "words"⟩] =
      LOE.fullTextStage sampleVocab [⟨some "introduction", some "our methods are described"⟩,
        ⟨some "analysis", some "words"⟩] :=
  C10_gate_sees_all sampleVocab
    [⟨some "introduction", some "our methods are described"⟩, ⟨some "analysis", some "words"⟩]
    "" ⟨some "introduction", some "our methods are described"⟩
    (by decide) (by decide) (by decide)
    ⟨"introduction", rfl, Or.inr (Or.inl (by decide))⟩
    (Or.inl (by decide))

theorem C8_minimum_gate_w :
    (LOE.gatedMatches sampleVocab ("a systematic review".data)).get? 8 =
      some (0, none) ∧
    (LOE.top (LOE.gatedMatches sampleVocab ("a systematic review".data))).all
      (fun p => p.1 != (LOE.CATEGORIES sampleVocab).length - 8) = true :=
  C8_minimum_gate sampleVocab ("a systematic review".data) ⟨8, by decide⟩ (by decide)

theorem C2_no_raise_w :
    (LOE.label sampleVocab [⟨some "methods", some "the methods were sound"⟩]).isSome
      = true :=
  C2_no_raise sampleVocab [⟨some "methods", some "the methods were sound"⟩] (by decide)

theorem C4_label_shape_w :
    (8 : Nat) ≤ 9 ∧
    ((some "\x27prevalence\x27: 1" : Option String) = none ↔ (8 : Nat) = 0) ∧
    (some "\x27prevalence\x27: 1" : Option String) ≠ some "" :=
  C4_label_shape sampleVocab [⟨some "title", some "A prevalence study"⟩] 8
    (some "\x27prevalence\x27: 1") (by decide)
